import Mathlib

/-! Verification of the media-scan plugin server core (`src/server/src/lib.rs`).

The development shallowly embeds the indexing/caching subsystem: the recursive
directory scanner `recursive_directory_scan`, the per-location pipeline
`update_media_directory` (timing cache, dedup query, batched insert, cutoff
advance), the full-reload countdown of `update_all_locations`, and the
`get_file` HTTP handler. Timestamps (`DateTime<Utc>`) are modelled as integers,
filesystem effects as explicit data on the directory tree, and the external
event store as a list of this plugin's records plus failure flags for its
query and insert calls. -/

namespace MediaScan

/-- One discovered media item (struct `Media`, src/server/src/lib.rs:425-430). -/
structure Media where
  path : String
  time_modified : Int
  location_name : String
deriving DecidableEq

/-- One file as the scanner observes it. `ext` models `entry.path().extension()`
followed by `to_str()`: `none` = the path has no extension, `some none` = an
extension that cannot be decoded as text, `some (some s)` = extension `s`.
`meta` models the `File::open(..)?.metadata()?.modified()` chain: `none` = the
open or metadata call fails (propagated by `?`), `some none` = `modified()`
returns an error, `some (some t)` = modification time `t`. `path` is the string
produced by `entry.path().to_str().unwrap_or("default")`. -/
structure FileNode where
  path : String
  ext : Option (Option String)
  meta : Option (Option Int)
deriving DecidableEq

mutual
/-- A directory entry as `recursive_directory_scan` observes it.
`dir readErr entries errAt`: a directory whose own `read_dir` call fails when
`readErr` is true, and whose entry stream yields its entries in order but
returns an error in place of the `k`-th entry when `errAt = some k`.
`typeErr` is an entry whose `file_type()` call fails; `other` an entry that is
neither a file nor a directory. -/
inductive FsEntry where
  | dir (readErr : Bool) (entries : FsList) (errAt : Option Nat)
  | file (f : FileNode)
  | other
  | typeErr

/-- A sequence of directory entries as yielded by the `read_dir` stream. -/
inductive FsList where
  | nil
  | cons (e : FsEntry) (rest : FsList)
end

/-- The extension allowlist `SUPPORTED_EXTENSIONS` (src/server/src/lib.rs:440-442). -/
def SUPPORTED_EXTENSIONS : List String :=
  ["png", "jpg", "mp4", "mkv", "webm", "jpeg", "mov", "heic", "gif", "mp3", "opus", "m4a"]

/-- Entries remaining before the modelled stream error after consuming one entry. -/
def decErr : Option Nat → Option Nat
  | none => none
  | some k => some (k - 1)

/-- Model of Rust's `str::to_lowercase` at the granularity this code needs:
per-character lowercasing (the supported extensions are ASCII). -/
def to_lowercase (s : String) : String := ⟨s.data.map Char.toLower⟩

mutual
/-- Model of `recursive_directory_scan` (src/server/src/lib.rs:444-511) applied to
one path. `fs::read_dir` fails (`?`) when the path is not a readable directory;
otherwise the entry loop starts with `found_media = []` and
`updated_newest = current_newest`. -/
def recursive_directory_scan (location_name : String) (current_newest : Int) :
    FsEntry → Except Unit (List Media × Int)
  | .dir readErr entries errAt =>
    if readErr then .error ()
    else scanLoop location_name current_newest [] current_newest entries errAt
  | _ => .error ()
termination_by structural e => e

/-- The `while let Ok(Some(ref entry)) = next_result` loop of
`recursive_directory_scan` (lines 453-508). `found` and `newest` are the
`found_media` and `updated_newest` accumulators; a stream error
(`errAt = some 0`) or the end of the entries exits the loop and returns `Ok`.
A `file_type()` failure, a failed `read_dir` in a subdirectory, or a failed
open/metadata call on a supported file propagates `Err` via `?`; an
undecodable extension or an unavailable `modified()` time skips the file. -/
def scanLoop (location_name : String) (current_newest : Int)
    (found : List Media) (newest : Int) :
    FsList → Option Nat → Except Unit (List Media × Int)
  | _, some 0 => .ok (found, newest)
  | .nil, _ => .ok (found, newest)
  | .cons e rest, errAt =>
    match e with
    | .typeErr => .error ()
    | .dir readErr entries errAt2 =>
      match recursive_directory_scan location_name current_newest (.dir readErr entries errAt2) with
      | .error e2 => .error e2
      | .ok (sub, updated_time) =>
        scanLoop location_name current_newest (found ++ sub)
          (if updated_time > newest then updated_time else newest) rest (decErr errAt)
    | .file f =>
      match f.ext with
      | none => scanLoop location_name current_newest found newest rest (decErr errAt)
      | some none => scanLoop location_name current_newest found newest rest (decErr errAt)
      | some (some ex) =>
        if SUPPORTED_EXTENSIONS.contains (to_lowercase ex) then
          match f.meta with
          | none => .error ()
          | some none => scanLoop location_name current_newest found newest rest (decErr errAt)
          | some (some t) =>
            if t > current_newest then
              scanLoop location_name current_newest
                (found ++ [⟨f.path, t, location_name⟩])
                (if t > newest then t else newest) rest (decErr errAt)
            else scanLoop location_name current_newest found newest rest (decErr errAt)
        else scanLoop location_name current_newest found newest rest (decErr errAt)
    | .other => scanLoop location_name current_newest found newest rest (decErr errAt)
termination_by structural l _ => l
end

deriving instance DecidableEq for Except

/-- Spec-side: the modification time carried by a file node (meaningful when
`meta = some (some t)`). -/
def mtimeOf (f : FileNode) : Int :=
  match f.meta with
  | some (some t) => t
  | _ => 0

/-- Spec-side description (claim C2): a file is included when its extension,
compared case-insensitively, is in the supported set and its modification time
is strictly greater than the cutoff. -/
def spec_fileIncluded (c : Int) (f : FileNode) : Bool :=
  match f.ext, f.meta with
  | some (some ex), some (some t) =>
    SUPPORTED_EXTENSIONS.contains (to_lowercase ex) && decide (c < t)
  | _, _ => false

/-- The `Media` record the scanner builds for an included file. -/
def mkMedia (location_name : String) (f : FileNode) : Media :=
  ⟨f.path, mtimeOf f, location_name⟩

/-- Spec-side: the maximum of a cutoff and the modification times of a list of files. -/
def cutFold (c : Int) (l : List FileNode) : Int :=
  l.foldl (fun a f => max a (mtimeOf f)) c

mutual
/-- Spec-side: all files under a directory entry, in traversal order. -/
def entryFiles : FsEntry → List FileNode
  | .dir _ entries _ => listFiles entries
  | .file f => [f]
  | .other => []
  | .typeErr => []
termination_by structural e => e

/-- Spec-side: all files under a sequence of entries, in traversal order. -/
def listFiles : FsList → List FileNode
  | .nil => []
  | .cons e rest => entryFiles e ++ listFiles rest
termination_by structural l => l
end

mutual
/-- An entry on which the scanner meets no filesystem fault: `file_type`
succeeds, directories are readable and their entry streams complete, and every
file with a supported extension yields a modification time. -/
def entryClean : FsEntry → Bool
  | .dir readErr entries errAt => !readErr && errAt.isNone && listClean entries
  | .file f =>
    match f.ext with
    | some (some ex) =>
      if SUPPORTED_EXTENSIONS.contains (to_lowercase ex) then
        match f.meta with
        | some (some _) => true
        | _ => false
      else true
    | _ => true
  | .other => true
  | .typeErr => false
termination_by structural e => e

/-- All entries of the sequence are clean. -/
def listClean : FsList → Bool
  | .nil => true
  | .cons e rest => entryClean e && listClean rest
termination_by structural l => l
end

mutual
/-- An entry free of the hard per-entry faults (`file_type`, `read_dir`,
`File::open`, `metadata`); its entry streams may still fail midway and
`modified()` may be unavailable. -/
def entryNoHardErr : FsEntry → Bool
  | .dir readErr entries _ => !readErr && listNoHardErr entries
  | .file f =>
    match f.ext with
    | some (some ex) =>
      if SUPPORTED_EXTENSIONS.contains (to_lowercase ex) then
        match f.meta with
        | none => false
        | some _ => true
      else true
    | _ => true
  | .other => true
  | .typeErr => false
termination_by structural e => e

/-- All entries of the sequence are free of hard faults. -/
def listNoHardErr : FsList → Bool
  | .nil => true
  | .cons e rest => entryNoHardErr e && listNoHardErr rest
termination_by structural l => l
end

/-- The first `k` entries of a sequence: what the entry stream yields before an
error at position `k`. -/
def fsTake : Nat → FsList → FsList
  | 0, _ => .nil
  | _, .nil => .nil
  | k + 1, .cons e rest => .cons e (fsTake k rest)

/-- The durable record form `Event<Media>` (alias `MediaEvent`): built with
`timing = Timing::Instant(time_modified)`, `id = media.path` and the constant
plugin tag (omitted here), src/server/src/lib.rs:335-343. -/
structure MediaEvent where
  id : String
  timing : Int
  event : Media
deriving DecidableEq

/-- Lines 335-343: wrap each scanned `Media` in an `Event` keyed by its path. -/
def toEvents (media : List Media) : List MediaEvent :=
  media.map (fun m => ⟨m.path, m.time_modified, m⟩)

/-- The dedup loop of `update_media_directory` (lines 384-397): keep a candidate
only when no already-found record has its id. -/
def compute_insert : List MediaEvent → List MediaEvent → List MediaEvent
  | [], _ => []
  | m :: rest, already_found_media =>
    if already_found_media.any (fun existing => existing.id == m.id) then
      compute_insert rest already_found_media
    else m :: compute_insert rest already_found_media

/-- The slice of the external event store visible to this plugin: the list of
the plugin's stored records, plus flags saying whether this cycle's batched
dedup query (`find`/`try_collect`) and batched insert (`register_events`)
calls fail. -/
structure Db where
  events : List MediaEvent
  queryFails : Bool
  insertFails : Bool
deriving DecidableEq

/-- The persisted `timing_cache: HashMap<PathBuf, DateTime<Utc>>` of
`LocationIndexingCache`, as an association list from location path to cutoff. -/
abbrev TimingCache := List (String × Int)

/-- Map lookup on the timing cache. -/
def lookupCache : TimingCache → String → Option Int
  | [], _ => none
  | (k, v) :: rest, loc => if k = loc then some v else lookupCache rest loc

/-- Map insert (replacing any existing entry) on the timing cache. -/
def insertCache : TimingCache → String → Int → TimingCache
  | [], loc, v => [(loc, v)]
  | (k, w) :: rest, loc, v =>
    if k = loc then (loc, v) :: rest else (k, w) :: insertCache rest loc v

/-- The tail of `update_media_directory` from the scan call on
(src/server/src/lib.rs:324-421): scan, build events, run the batched dedup
query (`event.path $in paths`, already scoped to this plugin's tag), compute
the unseen delta, insert it in one batch, and on success persist the advanced
cutoff. Every failure reports and returns, leaving cache and store as they
were at that point. -/
def update_after_scan (name loc : String) (tree : FsEntry) (latest_time : Int)
    (persistCutoffOk : Bool) (cache : TimingCache) (db : Db) : TimingCache × Db :=
  match recursive_directory_scan name latest_time tree with
  | .error _ => (cache, db)
  | .ok (media, new_latest_time) =>
    let events := toEvents media
    let paths := events.map (fun v => v.event.path)
    if db.queryFails then (cache, db)
    else
      let already_found_media := db.events.filter (fun e => paths.contains e.event.path)
      let insert := compute_insert events already_found_media
      if insert.isEmpty then (cache, db)
      else if db.insertFails then (cache, db)
      else
        let db2 : Db := { db with events := db.events ++ insert }
        if persistCutoffOk then (insertCache cache loc new_latest_time, db2)
        else (cache, db2)

/-- Model of `update_media_directory` (src/server/src/lib.rs:286-422) for one
location whose directory tree is `tree`. `persistEpochOk` and `persistCutoffOk`
say whether the two `cache.modify` persist calls succeed. On first encounter of
a location (no cache entry, no forced reload) the epoch cutoff `0`
(`DateTime::from_timestamp_millis(0)`) is written before scanning and read
back as the scan cutoff; a forced reload scans from the epoch without touching
the stored entry. -/
def update_media_directory (name loc : String) (tree : FsEntry) (full_reload : Bool)
    (persistEpochOk persistCutoffOk : Bool) (cache : TimingCache) (db : Db) :
    TimingCache × Db :=
  match full_reload, lookupCache cache loc with
  | false, some v => update_after_scan name loc tree v persistCutoffOk cache db
  | false, none =>
    if persistEpochOk then
      update_after_scan name loc tree 0 persistCutoffOk (insertCache cache loc 0) db
    else (cache, db)
  | true, _ => update_after_scan name loc tree 0 persistCutoffOk cache db

/-- Initial value of the `full_reload_remaining` counter (`Plugin::new`,
src/server/src/lib.rs:128-131). -/
def init_full_reload_remaining : Option Nat → Nat
  | some v => v
  | none => 0

/-- The countdown step at the top of `update_all_locations`
(src/server/src/lib.rs:256-272): given the configured `full_reload_interval`
and the stored counter, return this cycle's `ignore_cache` flag and the
counter stored afterwards. -/
def full_reload_step : Option Nat → Nat → Bool × Nat
  | some v, remaining => if remaining = 0 then (true, v) else (false, remaining - 1)
  | none, remaining => (false, remaining)

/-- Run `k` scan cycles of the countdown, collecting each cycle's
`ignore_cache` flag and the final stored counter. -/
def runCycles (cfg : Option Nat) : Nat → Nat → List Bool × Nat
  | 0, remaining => ([], remaining)
  | k + 1, remaining =>
    let s := full_reload_step cfg remaining
    let r := runCycles cfg k s.2
    (s.1 :: r.1, r.2)

/-- HTTP statuses the modelled routes can produce. -/
inductive HttpStatus where
  | ok
  | unauthorized
  | badRequest
deriving DecidableEq

/-- Rust's `PathBuf::from_str`, whose error type is `Infallible` (modelled as
`Empty`): it accepts every string. -/
def pathBufFromStr (s : String) : Except Empty String := .ok s

/-- A string is a well-formed filesystem path when `PathBuf::from_str` accepts it. -/
def wellFormedPath (s : String) : Prop := ∃ p, pathBufFromStr s = .ok p

/-- Model of the `get_file` route handler (src/server/src/lib.rs:203-216).
`verify` stands for `verify_string` applied to the managed verifying key; the
second component records whether `File::open` was invoked on the path. -/
def get_file (verify : String → String → Bool) (file sig : String) :
    HttpStatus × Bool :=
  if !(verify file sig) then (.unauthorized, false)
  else
    match pathBufFromStr file with
    | .ok _ => (.ok, true)
    | .error _ => (.badRequest, false)

/-- Joint induction principle for the mutual directory-tree types, obtained
from the generated mutual recursors. -/
theorem fs_mutual_ind (P : FsEntry → Prop) (Q : FsList → Prop)
    (hdir : ∀ readErr entries errAt, Q entries → P (.dir readErr entries errAt))
    (hfile : ∀ f, P (.file f))
    (hother : P .other)
    (htype : P .typeErr)
    (hnil : Q .nil)
    (hcons : ∀ e rest, P e → Q rest → Q (.cons e rest)) :
    (∀ e, P e) ∧ (∀ l, Q l) :=
  ⟨fun e => @FsEntry.rec P Q hdir hfile hother htype hnil hcons e,
   fun l => @FsList.rec P Q hdir hfile hother htype hnil hcons l⟩

theorem ite_gt_eq_max (a b : Int) : (if a > b then a else b) = max b a := by
  rcases le_or_lt a b with h | h
  · rw [if_neg (not_lt.mpr h), max_eq_left h]
  · rw [if_pos h, max_eq_right h.le]

theorem cutFold_nil (c : Int) : cutFold c [] = c := rfl

theorem cutFold_cons (c : Int) (f : FileNode) (l : List FileNode) :
    cutFold c (f :: l) = cutFold (max c (mtimeOf f)) l := rfl

theorem cutFold_le (c : Int) (l : List FileNode) : c ≤ cutFold c l := by
  induction l generalizing c with
  | nil => exact le_refl c
  | cons f l ih =>
    rw [cutFold_cons]
    exact le_trans (le_max_left c (mtimeOf f)) (ih (max c (mtimeOf f)))

theorem cutFold_max (a b : Int) (l : List FileNode) :
    cutFold (max a b) l = max a (cutFold b l) := by
  induction l generalizing b with
  | nil => rfl
  | cons f l ih =>
    rw [cutFold_cons, max_assoc, ih, ← cutFold_cons]

theorem cutFold_append (c : Int) (l1 l2 : List FileNode) :
    cutFold c (l1 ++ l2) = max (cutFold c l1) (cutFold c l2) := by
  calc cutFold c (l1 ++ l2) = cutFold (cutFold c l1) l2 := by
        simp [cutFold, List.foldl_append]
    _ = cutFold (max (cutFold c l1) c) l2 := by rw [max_eq_left (cutFold_le c l1)]
    _ = max (cutFold c l1) (cutFold c l2) := cutFold_max _ _ _

theorem listFiles_nil : listFiles .nil = [] := rfl

theorem listFiles_cons (e : FsEntry) (rest : FsList) :
    listFiles (.cons e rest) = entryFiles e ++ listFiles rest := rfl

/-! Step equations for `scanLoop`, all definitional once the scrutinised
constructors are exposed. -/

theorem scanLoop_stream_err (n : String) (c : Int) (found : List Media)
    (newest : Int) (l : FsList) :
    scanLoop n c found newest l (some 0) = .ok (found, newest) := by
  cases l <;> rfl

theorem scanLoop_nil (n : String) (c : Int) (found : List Media) (newest : Int)
    (errAt : Option Nat) :
    scanLoop n c found newest .nil errAt = .ok (found, newest) := by
  cases errAt with
  | none => rfl
  | some k => cases k <;> rfl

theorem scanLoop_cons_typeErr (n : String) (c : Int) (found : List Media)
    (newest : Int) (rest : FsList) (errAt : Option Nat) (h : errAt ≠ some 0) :
    scanLoop n c found newest (.cons .typeErr rest) errAt = .error () := by
  cases errAt with
  | none => rfl
  | some k =>
    cases k with
    | zero => exact absurd rfl h
    | succ k => rfl

theorem scanLoop_cons_other (n : String) (c : Int) (found : List Media)
    (newest : Int) (rest : FsList) (errAt : Option Nat) (h : errAt ≠ some 0) :
    scanLoop n c found newest (.cons .other rest) errAt =
      scanLoop n c found newest rest (decErr errAt) := by
  cases errAt with
  | none => rfl
  | some k =>
    cases k with
    | zero => exact absurd rfl h
    | succ k => rfl

theorem scanLoop_cons_dir (n : String) (c : Int) (found : List Media)
    (newest : Int) (readErr : Bool) (entries : FsList) (errAt2 : Option Nat)
    (rest : FsList) (errAt : Option Nat) (h : errAt ≠ some 0) :
    scanLoop n c found newest (.cons (.dir readErr entries errAt2) rest) errAt =
      match recursive_directory_scan n c (.dir readErr entries errAt2) with
      | .error e2 => .error e2
      | .ok (sub, updated_time) =>
        scanLoop n c (found ++ sub)
          (if updated_time > newest then updated_time else newest) rest (decErr errAt) := by
  cases errAt with
  | none => rfl
  | some k =>
    cases k with
    | zero => exact absurd rfl h
    | succ k => rfl

theorem scanLoop_cons_file_noExt (n : String) (c : Int) (found : List Media)
    (newest : Int) (p : String) (meta : Option (Option Int)) (rest : FsList)
    (errAt : Option Nat) (h : errAt ≠ some 0) :
    scanLoop n c found newest (.cons (.file ⟨p, none, meta⟩) rest) errAt =
      scanLoop n c found newest rest (decErr errAt) := by
  cases errAt with
  | none => rfl
  | some k =>
    cases k with
    | zero => exact absurd rfl h
    | succ k => rfl

theorem scanLoop_cons_file_undecodable (n : String) (c : Int) (found : List Media)
    (newest : Int) (p : String) (meta : Option (Option Int)) (rest : FsList)
    (errAt : Option Nat) (h : errAt ≠ some 0) :
    scanLoop n c found newest (.cons (.file ⟨p, some none, meta⟩) rest) errAt =
      scanLoop n c found newest rest (decErr errAt) := by
  cases errAt with
  | none => rfl
  | some k =>
    cases k with
    | zero => exact absurd rfl h
    | succ k => rfl

theorem scanLoop_cons_file_ext (n : String) (c : Int) (found : List Media)
    (newest : Int) (p : String) (ex : String) (meta : Option (Option Int))
    (rest : FsList) (errAt : Option Nat) (h : errAt ≠ some 0) :
    scanLoop n c found newest (.cons (.file ⟨p, some (some ex), meta⟩) rest) errAt =
      (if SUPPORTED_EXTENSIONS.contains (to_lowercase ex) then
        match meta with
        | none => .error ()
        | some none => scanLoop n c found newest rest (decErr errAt)
        | some (some t) =>
          if t > c then
            scanLoop n c (found ++ [⟨p, t, n⟩])
              (if t > newest then t else newest) rest (decErr errAt)
          else scanLoop n c found newest rest (decErr errAt)
      else scanLoop n c found newest rest (decErr errAt)) := by
  cases errAt with
  | none => rfl
  | some k =>
    cases k with
    | zero => exact absurd rfl h
    | succ k => rfl

theorem rds_dir (n : String) (c : Int) (readErr : Bool) (entries : FsList)
    (errAt : Option Nat) :
    recursive_directory_scan n c (.dir readErr entries errAt) =
      if readErr then .error () else scanLoop n c [] c entries errAt := rfl

theorem scanLoop_cons_dir_ok (n : String) (c : Int) (found : List Media)
    (newest : Int) (readErr : Bool) (entries : FsList) (errAt2 : Option Nat)
    (rest : FsList) (errAt : Option Nat) (sub : List Media) (ut : Int)
    (h : errAt ≠ some 0)
    (hres : recursive_directory_scan n c (.dir readErr entries errAt2) = .ok (sub, ut)) :
    scanLoop n c found newest (.cons (.dir readErr entries errAt2) rest) errAt =
      scanLoop n c (found ++ sub) (if ut > newest then ut else newest) rest (decErr errAt) := by
  rw [scanLoop_cons_dir _ _ _ _ _ _ _ _ _ h, hres]

theorem scanLoop_cons_dir_err (n : String) (c : Int) (found : List Media)
    (newest : Int) (readErr : Bool) (entries : FsList) (errAt2 : Option Nat)
    (rest : FsList) (errAt : Option Nat) (u : Unit)
    (h : errAt ≠ some 0)
    (hres : recursive_directory_scan n c (.dir readErr entries errAt2) = .error u) :
    scanLoop n c found newest (.cons (.dir readErr entries errAt2) rest) errAt = .error u := by
  rw [scanLoop_cons_dir _ _ _ _ _ _ _ _ _ h, hres]

theorem scanLoop_cons_file_metaErr (n : String) (c : Int) (found : List Media)
    (newest : Int) (p : String) (ex : String) (rest : FsList) (errAt : Option Nat)
    (h : errAt ≠ some 0)
    (hsup : SUPPORTED_EXTENSIONS.contains (to_lowercase ex) = true) :
    scanLoop n c found newest (.cons (.file ⟨p, some (some ex), none⟩) rest) errAt =
      .error () := by
  rw [scanLoop_cons_file_ext _ _ _ _ _ _ _ _ _ h, if_pos hsup]

theorem scanLoop_cons_file_noModified (n : String) (c : Int) (found : List Media)
    (newest : Int) (p : String) (ex : String) (rest : FsList) (errAt : Option Nat)
    (h : errAt ≠ some 0)
    (hsup : SUPPORTED_EXTENSIONS.contains (to_lowercase ex) = true) :
    scanLoop n c found newest (.cons (.file ⟨p, some (some ex), some none⟩) rest) errAt =
      scanLoop n c found newest rest (decErr errAt) := by
  rw [scanLoop_cons_file_ext _ _ _ _ _ _ _ _ _ h, if_pos hsup]

theorem scanLoop_cons_file_included (n : String) (c : Int) (found : List Media)
    (newest : Int) (p : String) (ex : String) (t : Int) (rest : FsList)
    (errAt : Option Nat) (h : errAt ≠ some 0)
    (hsup : SUPPORTED_EXTENSIONS.contains (to_lowercase ex) = true)
    (htc : t > c) :
    scanLoop n c found newest (.cons (.file ⟨p, some (some ex), some (some t)⟩) rest) errAt =
      scanLoop n c (found ++ [⟨p, t, n⟩]) (if t > newest then t else newest)
        rest (decErr errAt) := by
  rw [scanLoop_cons_file_ext _ _ _ _ _ _ _ _ _ h, if_pos hsup]
  exact if_pos htc

theorem scanLoop_cons_file_tooOld (n : String) (c : Int) (found : List Media)
    (newest : Int) (p : String) (ex : String) (t : Int) (rest : FsList)
    (errAt : Option Nat) (h : errAt ≠ some 0)
    (hsup : SUPPORTED_EXTENSIONS.contains (to_lowercase ex) = true)
    (htc : ¬ t > c) :
    scanLoop n c found newest (.cons (.file ⟨p, some (some ex), some (some t)⟩) rest) errAt =
      scanLoop n c found newest rest (decErr errAt) := by
  rw [scanLoop_cons_file_ext _ _ _ _ _ _ _ _ _ h, if_pos hsup]
  exact if_neg htc

theorem scanLoop_cons_file_unsupported (n : String) (c : Int) (found : List Media)
    (newest : Int) (p : String) (ex : String) (meta : Option (Option Int))
    (rest : FsList) (errAt : Option Nat) (h : errAt ≠ some 0)
    (hsup : ¬ SUPPORTED_EXTENSIONS.contains (to_lowercase ex) = true) :
    scanLoop n c found newest (.cons (.file ⟨p, some (some ex), meta⟩) rest) errAt =
      scanLoop n c found newest rest (decErr errAt) := by
  rw [scanLoop_cons_file_ext _ _ _ _ _ _ _ _ _ h, if_neg hsup]

theorem rds_file (n : String) (c : Int) (f : FileNode) :
    recursive_directory_scan n c (.file f) = .error () := rfl

theorem rds_other (n : String) (c : Int) :
    recursive_directory_scan n c .other = .error () := rfl

theorem rds_typeErr (n : String) (c : Int) :
    recursive_directory_scan n c .typeErr = .error () := rfl

/-- Spec-side description (claim C2): the records of exactly those files under
the entries whose extension is supported case-insensitively and whose
modification time is strictly greater than the cutoff, in traversal order. -/
def spec_items (name : String) (c : Int) (l : FsList) : List Media :=
  ((listFiles l).filter (spec_fileIncluded c)).map (mkMedia name)

/-- Spec-side description (claim C2): the maximum of the cutoff and the
modification times of the included files. -/
def spec_newCutoff (c : Int) (l : FsList) : Int :=
  cutFold c ((listFiles l).filter (spec_fileIncluded c))

theorem spec_newCutoff_ge (c : Int) (l : FsList) : c ≤ spec_newCutoff c l :=
  cutFold_le c _

/-- On a fault-free directory the scanner returns exactly the spec-side
included files together with the spec-side new cutoff; the loop form carries
its accumulators. -/
theorem scan_clean_spec (name : String) (c : Int) :
    (∀ e, ∀ entries, e = FsEntry.dir false entries none → listClean entries = true →
      recursive_directory_scan name c e =
        .ok (spec_items name c entries, spec_newCutoff c entries))
    ∧ (∀ l, listClean l = true → ∀ (found : List Media) (newest : Int), c ≤ newest →
      scanLoop name c found newest l none =
        .ok (found ++ spec_items name c l, max newest (spec_newCutoff c l))) := by
  refine fs_mutual_ind
    (fun e => ∀ entries, e = FsEntry.dir false entries none → listClean entries = true →
      recursive_directory_scan name c e =
        .ok (spec_items name c entries, spec_newCutoff c entries))
    (fun l => listClean l = true → ∀ (found : List Media) (newest : Int), c ≤ newest →
      scanLoop name c found newest l none =
        .ok (found ++ spec_items name c l, max newest (spec_newCutoff c l)))
    ?_ ?_ ?_ ?_ ?_ ?_
  · intro readErr entries errAt hQ entries2 heq hclean
    injection heq with h1 h2 h3
    subst h1; subst h2; subst h3
    rw [rds_dir, if_neg (by simp), hQ hclean [] c (le_refl c)]
    rw [List.nil_append, max_eq_right (spec_newCutoff_ge c _)]
  · intro f entries heq; exact FsEntry.noConfusion heq
  · intro entries heq; exact FsEntry.noConfusion heq
  · intro entries heq; exact FsEntry.noConfusion heq
  · intro _ found newest hn
    rw [scanLoop_nil]
    have h1 : spec_items name c .nil = [] := rfl
    have h2 : spec_newCutoff c .nil = c := rfl
    rw [h1, h2, List.append_nil, max_eq_left hn]
  · intro e rest hP hQ hcl found newest hn
    have hcl' : entryClean e = true ∧ listClean rest = true := by
      simp only [listClean, Bool.and_eq_true] at hcl
      exact hcl
    obtain ⟨he, hrest⟩ := hcl'
    have hd : decErr none = none := rfl
    cases e with
    | typeErr => simp [entryClean] at he
    | other =>
      rw [scanLoop_cons_other _ _ _ _ _ _ (by simp), hd, hQ hrest found newest hn]
      rfl
    | dir readErr entries errAt =>
      simp only [entryClean, Bool.and_eq_true, Bool.not_eq_true',
        Option.isNone_iff_eq_none] at he
      obtain ⟨⟨hr, hea⟩, hen⟩ := he
      subst hr; subst hea
      rw [scanLoop_cons_dir_ok _ _ _ _ _ _ _ _ _ _ _ (by simp) (hP entries rfl hen),
        hd, ite_gt_eq_max,
        hQ hrest (found ++ spec_items name c entries) (max newest (spec_newCutoff c entries))
          (le_trans hn (le_max_left _ _))]
      have hitems : spec_items name c (.cons (.dir false entries none) rest) =
          spec_items name c entries ++ spec_items name c rest := by
        simp [spec_items, listFiles_cons, List.filter_append, entryFiles]
      have hcut : spec_newCutoff c (.cons (.dir false entries none) rest) =
          max (spec_newCutoff c entries) (spec_newCutoff c rest) := by
        simp [spec_newCutoff, listFiles_cons, List.filter_append, cutFold_append, entryFiles]
      rw [hitems, hcut, List.append_assoc, max_assoc]
    | file f =>
      obtain ⟨p, ext, meta⟩ := f
      match ext with
      | none =>
        rw [scanLoop_cons_file_noExt _ _ _ _ _ _ _ _ (by simp), hd,
          hQ hrest found newest hn]
        rfl
      | some none =>
        rw [scanLoop_cons_file_undecodable _ _ _ _ _ _ _ _ (by simp), hd,
          hQ hrest found newest hn]
        rfl
      | some (some ex) =>
        by_cases hsup : SUPPORTED_EXTENSIONS.contains (to_lowercase ex) = true
        · simp only [entryClean, hsup, if_pos] at he
          match meta with
          | none => simp at he
          | some none => simp at he
          | some (some t) =>
            by_cases htc : t > c
            · rw [scanLoop_cons_file_included _ _ _ _ _ _ _ _ _ (by simp) hsup htc, hd,
                ite_gt_eq_max,
                hQ hrest (found ++ [(⟨p, t, name⟩ : Media)]) (max newest t)
                  (le_trans hn (le_max_left _ _))]
              have hinc : spec_fileIncluded c ⟨p, some (some ex), some (some t)⟩ = true := by
                show (SUPPORTED_EXTENSIONS.contains (to_lowercase ex) && decide (c < t)) = true
                rw [hsup, decide_eq_true htc]
                rfl
              have hitems : spec_items name c
                  (.cons (.file ⟨p, some (some ex), some (some t)⟩) rest) =
                  ⟨p, t, name⟩ :: spec_items name c rest := by
                have h1 : listFiles (FsList.cons (.file ⟨p, some (some ex), some (some t)⟩) rest) =
                    ⟨p, some (some ex), some (some t)⟩ :: listFiles rest := rfl
                rw [spec_items, h1, List.filter_cons_of_pos hinc, List.map_cons, spec_items]
                rfl
              have hcut : spec_newCutoff c
                  (.cons (.file ⟨p, some (some ex), some (some t)⟩) rest) =
                  max t (spec_newCutoff c rest) := by
                have h1 : listFiles (FsList.cons (.file ⟨p, some (some ex), some (some t)⟩) rest) =
                    ⟨p, some (some ex), some (some t)⟩ :: listFiles rest := rfl
                rw [spec_newCutoff, h1, List.filter_cons_of_pos hinc, cutFold_cons]
                have h2 : mtimeOf ⟨p, some (some ex), some (some t)⟩ = t := rfl
                rw [h2, max_comm c t, cutFold_max]
                rfl
              rw [hitems, hcut, List.append_assoc, max_assoc]
              rfl
            · rw [scanLoop_cons_file_tooOld _ _ _ _ _ _ _ _ _ (by simp) hsup htc, hd,
                hQ hrest found newest hn]
              have hninc : spec_fileIncluded c ⟨p, some (some ex), some (some t)⟩ = false := by
                simp only [spec_fileIncluded, hsup, Bool.true_and, decide_eq_false_iff_not]
                exact htc
              have hitems : spec_items name c
                  (.cons (.file ⟨p, some (some ex), some (some t)⟩) rest) =
                  spec_items name c rest := by
                have h1 : listFiles (FsList.cons (.file ⟨p, some (some ex), some (some t)⟩) rest) =
                    ⟨p, some (some ex), some (some t)⟩ :: listFiles rest := rfl
                rw [spec_items, h1, List.filter_cons_of_neg (by simp [hninc]), spec_items]
              have hcut : spec_newCutoff c
                  (.cons (.file ⟨p, some (some ex), some (some t)⟩) rest) =
                  spec_newCutoff c rest := by
                have h1 : listFiles (FsList.cons (.file ⟨p, some (some ex), some (some t)⟩) rest) =
                    ⟨p, some (some ex), some (some t)⟩ :: listFiles rest := rfl
                rw [spec_newCutoff, h1, List.filter_cons_of_neg (by simp [hninc]), spec_newCutoff]
              rw [hitems, hcut]
        · rw [scanLoop_cons_file_unsupported _ _ _ _ _ _ _ _ _ (by simp) hsup, hd,
            hQ hrest found newest hn]
          have hninc : spec_fileIncluded c ⟨p, some (some ex), meta⟩ = false := by
            match meta with
            | none => rfl
            | some none => rfl
            | some (some t) =>
              simp only [spec_fileIncluded]
              rw [Bool.eq_false_iff.mpr hsup, Bool.false_and]
          have hitems : spec_items name c (.cons (.file ⟨p, some (some ex), meta⟩) rest) =
              spec_items name c rest := by
            have h1 : listFiles (FsList.cons (.file ⟨p, some (some ex), meta⟩) rest) =
                ⟨p, some (some ex), meta⟩ :: listFiles rest := rfl
            rw [spec_items, h1, List.filter_cons_of_neg (by simp [hninc]), spec_items]
          have hcut : spec_newCutoff c (.cons (.file ⟨p, some (some ex), meta⟩) rest) =
              spec_newCutoff c rest := by
            have h1 : listFiles (FsList.cons (.file ⟨p, some (some ex), meta⟩) rest) =
                ⟨p, some (some ex), meta⟩ :: listFiles rest := rfl
            rw [spec_newCutoff, h1, List.filter_cons_of_neg (by simp [hninc]), spec_newCutoff]
          rw [hitems, hcut]

/-- The scanner never returns a newest time below the accumulator it starts
from; in particular a successful top-level scan returns a cutoff at least the
one it was given. -/
theorem scan_newest_mono (name : String) (c : Int) :
    (∀ e, ∀ (m : List Media) (t : Int),
      recursive_directory_scan name c e = .ok (m, t) → c ≤ t)
    ∧ (∀ l, ∀ (errAt : Option Nat) (found : List Media) (newest : Int)
        (m : List Media) (t : Int),
        scanLoop name c found newest l errAt = .ok (m, t) → newest ≤ t) := by
  refine fs_mutual_ind
    (fun e => ∀ (m : List Media) (t : Int),
      recursive_directory_scan name c e = .ok (m, t) → c ≤ t)
    (fun l => ∀ (errAt : Option Nat) (found : List Media) (newest : Int)
        (m : List Media) (t : Int),
        scanLoop name c found newest l errAt = .ok (m, t) → newest ≤ t)
    ?_ ?_ ?_ ?_ ?_ ?_
  · intro readErr entries errAt hQ m t h
    rw [rds_dir] at h
    cases readErr with
    | true => simp at h
    | false =>
      rw [if_neg (by simp)] at h
      exact hQ errAt [] c m t h
  · intro f m t h
    rw [rds_file] at h
    exact Except.noConfusion h
  · intro m t h
    rw [rds_other] at h
    exact Except.noConfusion h
  · intro m t h
    rw [rds_typeErr] at h
    exact Except.noConfusion h
  · intro errAt found newest m t h
    rw [scanLoop_nil] at h
    injection h with h2
    injection h2 with ha hb
    exact le_of_eq hb
  · intro e rest hP hQ errAt found newest m t h
    rcases eq_or_ne errAt (some 0) with heq | hne
    · subst heq
      rw [scanLoop_stream_err] at h
      injection h with h2
      injection h2 with ha hb
      exact le_of_eq hb
    · cases e with
      | typeErr =>
        rw [scanLoop_cons_typeErr _ _ _ _ _ _ hne] at h
        exact Except.noConfusion h
      | other =>
        rw [scanLoop_cons_other _ _ _ _ _ _ hne] at h
        exact hQ _ _ _ _ _ h
      | dir readErr entries errAt2 =>
        rcases hres : recursive_directory_scan name c (.dir readErr entries errAt2)
          with u | ⟨sub, ut⟩
        · rw [scanLoop_cons_dir_err _ _ _ _ _ _ _ _ _ _ hne hres] at h
          exact Except.noConfusion h
        · rw [scanLoop_cons_dir_ok _ _ _ _ _ _ _ _ _ _ _ hne hres] at h
          have h2 := hQ _ _ _ _ _ h
          rw [ite_gt_eq_max] at h2
          exact le_trans (le_max_left _ _) h2
      | file f =>
        obtain ⟨p, ext, meta⟩ := f
        match ext with
        | none =>
          rw [scanLoop_cons_file_noExt _ _ _ _ _ _ _ _ hne] at h
          exact hQ _ _ _ _ _ h
        | some none =>
          rw [scanLoop_cons_file_undecodable _ _ _ _ _ _ _ _ hne] at h
          exact hQ _ _ _ _ _ h
        | some (some ex) =>
          by_cases hsup : SUPPORTED_EXTENSIONS.contains (to_lowercase ex) = true
          · match meta with
            | none =>
              rw [scanLoop_cons_file_metaErr _ _ _ _ _ _ _ _ hne hsup] at h
              exact Except.noConfusion h
            | some none =>
              rw [scanLoop_cons_file_noModified _ _ _ _ _ _ _ _ hne hsup] at h
              exact hQ _ _ _ _ _ h
            | some (some t0) =>
              by_cases htc : t0 > c
              · rw [scanLoop_cons_file_included _ _ _ _ _ _ _ _ _ hne hsup htc] at h
                have h2 := hQ _ _ _ _ _ h
                rw [ite_gt_eq_max] at h2
                exact le_trans (le_max_left _ _) h2
              · rw [scanLoop_cons_file_tooOld _ _ _ _ _ _ _ _ _ hne hsup htc] at h
                exact hQ _ _ _ _ _ h
          · rw [scanLoop_cons_file_unsupported _ _ _ _ _ _ _ _ _ hne hsup] at h
            exact hQ _ _ _ _ _ h

theorem rds_ok_ge (name : String) (c : Int) (e : FsEntry) (m : List Media) (t : Int)
    (h : recursive_directory_scan name c e = .ok (m, t)) : c ≤ t :=
  (scan_newest_mono name c).1 e m t h

/-- A stream error at position `k` makes the loop behave exactly as if the
directory had ended cleanly after its first `k` entries. -/
theorem scanLoop_truncates (name : String) (c : Int) :
    ∀ l : FsList, ∀ (k : Nat) (found : List Media) (newest : Int),
      scanLoop name c found newest l (some k) =
        scanLoop name c found newest (fsTake k l) none := by
  refine (fs_mutual_ind (fun _ => True)
    (fun l => ∀ (k : Nat) (found : List Media) (newest : Int),
      scanLoop name c found newest l (some k) =
        scanLoop name c found newest (fsTake k l) none)
    ?_ ?_ ?_ ?_ ?_ ?_).2
  · intro _ _ _ _; trivial
  · intro _; trivial
  · trivial
  · trivial
  · intro k found newest
    have h1 : fsTake k FsList.nil = .nil := by cases k <;> rfl
    rw [scanLoop_nil, h1, scanLoop_nil]
  · intro e rest _ hQ k found newest
    cases k with
    | zero =>
      have h1 : fsTake 0 (FsList.cons e rest) = .nil := rfl
      rw [scanLoop_stream_err, h1, scanLoop_nil]
    | succ k =>
      have hne : (some (k + 1) : Option Nat) ≠ some 0 := by simp
      have htk : fsTake (k + 1) (FsList.cons e rest) = .cons e (fsTake k rest) := rfl
      have hdl : decErr (some (k + 1)) = some k := rfl
      have hdr : decErr (none : Option Nat) = none := rfl
      rw [htk]
      cases e with
      | typeErr =>
        rw [scanLoop_cons_typeErr _ _ _ _ _ _ hne,
          scanLoop_cons_typeErr _ _ _ _ _ _ (by simp)]
      | other =>
        rw [scanLoop_cons_other _ _ _ _ _ _ hne,
          scanLoop_cons_other _ _ _ _ _ _ (by simp), hdl, hdr, hQ]
      | dir readErr entries errAt2 =>
        rcases hres : recursive_directory_scan name c (.dir readErr entries errAt2)
          with u | ⟨sub, ut⟩
        · rw [scanLoop_cons_dir_err _ _ _ _ _ _ _ _ _ _ hne hres,
            scanLoop_cons_dir_err _ _ _ _ _ _ _ _ _ _ (by simp) hres]
        · rw [scanLoop_cons_dir_ok _ _ _ _ _ _ _ _ _ _ _ hne hres,
            scanLoop_cons_dir_ok _ _ _ _ _ _ _ _ _ _ _ (by simp) hres, hdl, hdr, hQ]
      | file f =>
        obtain ⟨p, ext, meta⟩ := f
        match ext with
        | none =>
          rw [scanLoop_cons_file_noExt _ _ _ _ _ _ _ _ hne,
            scanLoop_cons_file_noExt _ _ _ _ _ _ _ _ (by simp), hdl, hdr, hQ]
        | some none =>
          rw [scanLoop_cons_file_undecodable _ _ _ _ _ _ _ _ hne,
            scanLoop_cons_file_undecodable _ _ _ _ _ _ _ _ (by simp), hdl, hdr, hQ]
        | some (some ex) =>
          by_cases hsup : SUPPORTED_EXTENSIONS.contains (to_lowercase ex) = true
          · match meta with
            | none =>
              rw [scanLoop_cons_file_metaErr _ _ _ _ _ _ _ _ hne hsup,
                scanLoop_cons_file_metaErr _ _ _ _ _ _ _ _ (by simp) hsup]
            | some none =>
              rw [scanLoop_cons_file_noModified _ _ _ _ _ _ _ _ hne hsup,
                scanLoop_cons_file_noModified _ _ _ _ _ _ _ _ (by simp) hsup, hdl, hdr, hQ]
            | some (some t0) =>
              by_cases htc : t0 > c
              · rw [scanLoop_cons_file_included _ _ _ _ _ _ _ _ _ hne hsup htc,
                  scanLoop_cons_file_included _ _ _ _ _ _ _ _ _ (by simp) hsup htc,
                  hdl, hdr, hQ]
              · rw [scanLoop_cons_file_tooOld _ _ _ _ _ _ _ _ _ hne hsup htc,
                  scanLoop_cons_file_tooOld _ _ _ _ _ _ _ _ _ (by simp) hsup htc,
                  hdl, hdr, hQ]
          · rw [scanLoop_cons_file_unsupported _ _ _ _ _ _ _ _ _ hne hsup,
              scanLoop_cons_file_unsupported _ _ _ _ _ _ _ _ _ (by simp) hsup, hdl, hdr, hQ]

/-- A tree free of hard per-entry faults always scans to `Ok`, whatever the
entry-stream errors are. -/
theorem scan_noHardErr_ok (name : String) (c : Int) :
    (∀ e, entryNoHardErr e = true →
      ∀ entries errAt, e = FsEntry.dir false entries errAt →
      ∃ r, recursive_directory_scan name c e = .ok r)
    ∧ (∀ l, listNoHardErr l = true →
      ∀ (errAt : Option Nat) (found : List Media) (newest : Int),
      ∃ r, scanLoop name c found newest l errAt = .ok r) := by
  refine fs_mutual_ind
    (fun e => entryNoHardErr e = true →
      ∀ entries errAt, e = FsEntry.dir false entries errAt →
      ∃ r, recursive_directory_scan name c e = .ok r)
    (fun l => listNoHardErr l = true →
      ∀ (errAt : Option Nat) (found : List Media) (newest : Int),
      ∃ r, scanLoop name c found newest l errAt = .ok r)
    ?_ ?_ ?_ ?_ ?_ ?_
  · intro readErr entries errAt hQ hnh entries2 errAt2 heq
    injection heq with h1 h2 h3
    subst h1; subst h2; subst h3
    simp only [entryNoHardErr, Bool.and_eq_true, Bool.not_eq_true'] at hnh
    rw [rds_dir, if_neg (by simp)]
    exact hQ hnh.2 errAt [] c
  · intro f _ entries errAt heq; exact FsEntry.noConfusion heq
  · intro _ entries errAt heq; exact FsEntry.noConfusion heq
  · intro _ entries errAt heq; exact FsEntry.noConfusion heq
  · intro _ errAt found newest
    exact ⟨(found, newest), scanLoop_nil _ _ _ _ _⟩
  · intro e rest hP hQ hnh errAt found newest
    have hnh' : entryNoHardErr e = true ∧ listNoHardErr rest = true := by
      simp only [listNoHardErr, Bool.and_eq_true] at hnh
      exact hnh
    obtain ⟨he, hrest⟩ := hnh'
    rcases eq_or_ne errAt (some 0) with heq | hne
    · subst heq
      exact ⟨(found, newest), scanLoop_stream_err _ _ _ _ _⟩
    · cases e with
      | typeErr => simp [entryNoHardErr] at he
      | other =>
        obtain ⟨r, hr⟩ := hQ hrest (decErr errAt) found newest
        exact ⟨r, by rw [scanLoop_cons_other _ _ _ _ _ _ hne, hr]⟩
      | dir readErr entries errAt2 =>
        simp only [entryNoHardErr, Bool.and_eq_true, Bool.not_eq_true'] at he
        obtain ⟨hr0, hen⟩ := he
        subst hr0
        obtain ⟨r0, hres⟩ := hP (by simp [entryNoHardErr, hen]) entries errAt2 rfl
        obtain ⟨sub, ut⟩ := r0
        obtain ⟨r, hr⟩ := hQ hrest (decErr errAt) (found ++ sub)
          (if ut > newest then ut else newest)
        exact ⟨r, by rw [scanLoop_cons_dir_ok _ _ _ _ _ _ _ _ _ _ _ hne hres, hr]⟩
      | file f =>
        obtain ⟨p, ext, meta⟩ := f
        match ext with
        | none =>
          obtain ⟨r, hr⟩ := hQ hrest (decErr errAt) found newest
          exact ⟨r, by rw [scanLoop_cons_file_noExt _ _ _ _ _ _ _ _ hne, hr]⟩
        | some none =>
          obtain ⟨r, hr⟩ := hQ hrest (decErr errAt) found newest
          exact ⟨r, by rw [scanLoop_cons_file_undecodable _ _ _ _ _ _ _ _ hne, hr]⟩
        | some (some ex) =>
          by_cases hsup : SUPPORTED_EXTENSIONS.contains (to_lowercase ex) = true
          · match meta with
            | none =>
              simp only [entryNoHardErr, hsup] at he
              simp at he
            | some none =>
              obtain ⟨r, hr⟩ := hQ hrest (decErr errAt) found newest
              exact ⟨r, by rw [scanLoop_cons_file_noModified _ _ _ _ _ _ _ _ hne hsup, hr]⟩
            | some (some t0) =>
              by_cases htc : t0 > c
              · obtain ⟨r, hr⟩ := hQ hrest (decErr errAt) (found ++ [(⟨p, t0, name⟩ : Media)])
                  (if t0 > newest then t0 else newest)
                exact ⟨r, by
                  rw [scanLoop_cons_file_included _ _ _ _ _ _ _ _ _ hne hsup htc, hr]⟩
              · obtain ⟨r, hr⟩ := hQ hrest (decErr errAt) found newest
                exact ⟨r, by rw [scanLoop_cons_file_tooOld _ _ _ _ _ _ _ _ _ hne hsup htc, hr]⟩
          · obtain ⟨r, hr⟩ := hQ hrest (decErr errAt) found newest
            exact ⟨r, by rw [scanLoop_cons_file_unsupported _ _ _ _ _ _ _ _ _ hne hsup, hr]⟩

theorem lookupCache_insertCache_self (cache : TimingCache) (loc : String) (v : Int) :
    lookupCache (insertCache cache loc v) loc = some v := by
  induction cache with
  | nil => simp [insertCache, lookupCache]
  | cons kv rest ih =>
    obtain ⟨k, w⟩ := kv
    by_cases hk : k = loc
    · subst hk
      simp [insertCache, lookupCache]
    · simp [insertCache, lookupCache, hk, ih]

/-- The dedup loop is precisely a filter: it keeps exactly the candidates whose
id matches no already-found record. -/
theorem compute_insert_eq_filter (media found : List MediaEvent) :
    compute_insert media found =
      media.filter (fun m => !(found.any (fun existing => existing.id == m.id))) := by
  induction media with
  | nil => rfl
  | cons m rest ih =>
    by_cases h : found.any (fun existing => existing.id == m.id) = true
    · rw [compute_insert, if_pos h, ih, List.filter_cons_of_neg (by simp [h])]
    · rw [compute_insert, if_neg h, ih, List.filter_cons_of_pos (by simp [h])]

theorem mem_compute_insert (media found : List MediaEvent) (ev : MediaEvent) :
    ev ∈ compute_insert media found ↔
      ev ∈ media ∧ ∀ e ∈ found, ¬ e.id = ev.id := by
  rw [compute_insert_eq_filter, List.mem_filter]
  simp [List.any_eq_true]

theorem toEvents_id_eq_path (ms : List Media) (ev : MediaEvent) (h : ev ∈ toEvents ms) :
    ev.id = ev.event.path := by
  simp only [toEvents, List.mem_map] at h
  obtain ⟨m, hm, rfl⟩ := h
  rfl

theorem runCycles_none_all_incremental (k : Nat) :
    ∀ remaining : Nat, (runCycles none k remaining).1.all (fun b => b == false) = true := by
  induction k with
  | zero => intro remaining; rfl
  | succ k ih =>
    intro remaining
    have h1 : runCycles none (k + 1) remaining =
        (false :: (runCycles none k remaining).1, (runCycles none k remaining).2) := rfl
    rw [h1, List.all_cons]
    have h2 : ((false == false) : Bool) = true := rfl
    rw [h2, Bool.true_and]
    exact ih remaining

theorem spec_fileIncluded_mtime (c : Int) (f : FileNode)
    (h : spec_fileIncluded c f = true) : ∃ t, f.meta = some (some t) ∧ c < t := by
  obtain ⟨p, ext, meta⟩ := f
  cases ext with
  | none => exact Bool.noConfusion h
  | some o =>
    cases o with
    | none => exact Bool.noConfusion h
    | some ex =>
      cases meta with
      | none => exact Bool.noConfusion h
      | some mo =>
        cases mo with
        | none => exact Bool.noConfusion h
        | some t =>
          refine ⟨t, rfl, ?_⟩
          have h2 : (SUPPORTED_EXTENSIONS.contains (to_lowercase ex)
              && decide (c < t)) = true := h
          simp only [Bool.and_eq_true] at h2
          exact of_decide_eq_true h2.2

/-! ### Claim theorems -/

/-- Claim C2: on a fault-free tree, scanning with cutoff `c` returns exactly
the files whose extension is supported case-insensitively and whose
modification time is strictly greater than `c`, together with the maximum of
`c` and those modification times; and when every file's modification time is
at most `c`, the item list is empty and the returned cutoff is `c`. -/
theorem C2_scan_characterization (name : String) (c : Int) (entries : FsList)
    (h : listClean entries = true) :
    recursive_directory_scan name c (.dir false entries none) =
      .ok (spec_items name c entries, spec_newCutoff c entries)
    ∧ ((∀ f ∈ listFiles entries, ∀ t, f.meta = some (some t) → t ≤ c) →
      recursive_directory_scan name c (.dir false entries none) = .ok ([], c)) := by
  constructor
  · exact (scan_clean_spec name c).1 _ entries rfl h
  · intro hall
    have hfilter : (listFiles entries).filter (spec_fileIncluded c) = [] := by
      rw [List.filter_eq_nil_iff]
      intro f hf hinc
      obtain ⟨t, hmeta, hlt⟩ := spec_fileIncluded_mtime c f hinc
      exact absurd (hall f hf t hmeta) (not_le.mpr hlt)
    rw [(scan_clean_spec name c).1 _ entries rfl h]
    unfold spec_items spec_newCutoff
    rw [hfilter]
    rfl

/-- The tree of the specification's scenario for claim C2: `a.jpg` at time 10,
`b.txt` at time 20 and `sub/c.png` at time 30. -/
def C2tree : FsList :=
  .cons (.file ⟨"/photos/a.jpg", some (some "jpg"), some (some 10)⟩)
    (.cons (.file ⟨"/photos/b.txt", some (some "txt"), some (some 20)⟩)
      (.cons (.dir false
        (.cons (.file ⟨"/photos/sub/c.png", some (some "png"), some (some 30)⟩) .nil) none)
        .nil))

/-- Claim C2 witness: the characterization applies to the concrete scenario
tree, where it yields exactly `a.jpg` and `sub/c.png` with new cutoff 30. -/
theorem C2_witness :
    listClean C2tree = true
    ∧ spec_items "Photos" 0 C2tree =
        [⟨"/photos/a.jpg", 10, "Photos"⟩, ⟨"/photos/sub/c.png", 30, "Photos"⟩]
    ∧ spec_newCutoff 0 C2tree = 30
    ∧ (recursive_directory_scan "Photos" 0 (.dir false C2tree none) =
        .ok (spec_items "Photos" 0 C2tree, spec_newCutoff 0 C2tree)
      ∧ ((∀ f ∈ listFiles C2tree, ∀ t, f.meta = some (some t) → t ≤ 0) →
        recursive_directory_scan "Photos" 0 (.dir false C2tree none) = .ok ([], 0))) :=
  ⟨by decide, by decide, by decide, C2_scan_characterization "Photos" 0 C2tree (by decide)⟩

/-- Claim C4: the `get_file` route depends only on signature verification: a
failing verification yields 401 with no file opened, a passing one opens the
file and answers 200, and every string is accepted by `PathBuf::from_str` as a
well-formed path (so the 400 answer is reserved for ill-formed paths, of which
there are none). -/
theorem C4_get_file_contract (verify : String → String → Bool) (file sig : String) :
    get_file verify file sig =
      (if verify file sig then (HttpStatus.ok, true) else (HttpStatus.unauthorized, false))
    ∧ wellFormedPath file := by
  refine ⟨?_, ⟨file, rfl⟩⟩
  cases hv : verify file sig with
  | true => simp [get_file, pathBufFromStr, hv]
  | false => simp [get_file, hv]

/-- Claim C9: `PathBuf::from_str` is infallible, hence `get_file` only ever
answers 200 or 401 and its 400 branch is unreachable. -/
theorem C9_only_ok_or_unauthorized :
    (∀ s : String, pathBufFromStr s = .ok s)
    ∧ (∀ (verify : String → String → Bool) (file sig : String),
      (get_file verify file sig).1 = HttpStatus.ok ∨
      (get_file verify file sig).1 = HttpStatus.unauthorized) := by
  refine ⟨fun s => rfl, fun verify file sig => ?_⟩
  cases hv : verify file sig with
  | true => left; simp [get_file, pathBufFromStr, hv]
  | false => right; simp [get_file, hv]

/-- Claim C6: the countdown starts at the configured `N`; each cycle forces a
full reload and resets the counter exactly when the counter is zero and
otherwise decrements it; with `N = 3` the first three cycles are incremental
and the fourth (and only the fourth) forces the reload, resetting the counter
to 3; without a configured interval every cycle is incremental. -/
theorem C6_reload_countdown :
    (∀ N : Nat, init_full_reload_remaining (some N) = N)
    ∧ (∀ N remaining : Nat, full_reload_step (some N) remaining =
        if remaining = 0 then (true, N) else (false, remaining - 1))
    ∧ runCycles (some 3) 4 (init_full_reload_remaining (some 3)) =
        ([false, false, false, true], 3)
    ∧ (runCycles (some 3) 4 (init_full_reload_remaining (some 3))).1.count true = 1
    ∧ (∀ k remaining : Nat,
        (runCycles none k remaining).1.all (fun b => b == false) = true) :=
  ⟨fun N => rfl, fun N remaining => rfl, by decide, by decide,
   fun k remaining => runCycles_none_all_incremental k remaining⟩

/-- Claim C7: the events handed to the batched insert are exactly the
candidates minus those whose path appears as the id of a record returned by
the batched dedup query: the dedup loop is a filter, and a wrapped candidate
is inserted iff no returned record's id equals its path. -/
theorem C7_dedup_delta (candidates : List Media) (already_found_media : List MediaEvent) :
    compute_insert (toEvents candidates) already_found_media =
      (toEvents candidates).filter
        (fun m => !(already_found_media.any (fun existing => existing.id == m.id)))
    ∧ (∀ ev, ev ∈ compute_insert (toEvents candidates) already_found_media ↔
        (ev ∈ toEvents candidates ∧ ∀ e ∈ already_found_media, ¬ e.id = ev.event.path)) := by
  refine ⟨compute_insert_eq_filter _ _, fun ev => ?_⟩
  rw [mem_compute_insert]
  constructor
  · rintro ⟨hmem, hall⟩
    refine ⟨hmem, ?_⟩
    rw [← toEvents_id_eq_path candidates ev hmem]
    exact hall
  · rintro ⟨hmem, hall⟩
    refine ⟨hmem, ?_⟩
    rw [toEvents_id_eq_path candidates ev hmem]
    exact hall

/-- Claim C7 witness: the dedup characterization at a concrete pair of
candidate lists, where `a.jpg` is already indexed and `b.jpg` is not. -/
theorem C7_witness :
    compute_insert (toEvents [⟨"/m/a.jpg", 5, "n"⟩, ⟨"/m/b.jpg", 6, "n"⟩])
        [⟨"/m/a.jpg", 5, ⟨"/m/a.jpg", 5, "n"⟩⟩] =
      (toEvents [⟨"/m/a.jpg", 5, "n"⟩, ⟨"/m/b.jpg", 6, "n"⟩]).filter
        (fun m => !(([⟨"/m/a.jpg", 5, ⟨"/m/a.jpg", 5, "n"⟩⟩] : List MediaEvent).any
          (fun existing => existing.id == m.id)))
    ∧ (∀ ev, ev ∈ compute_insert (toEvents [⟨"/m/a.jpg", 5, "n"⟩, ⟨"/m/b.jpg", 6, "n"⟩])
          [⟨"/m/a.jpg", 5, ⟨"/m/a.jpg", 5, "n"⟩⟩] ↔
        (ev ∈ toEvents [⟨"/m/a.jpg", 5, "n"⟩, ⟨"/m/b.jpg", 6, "n"⟩]
          ∧ ∀ e ∈ ([⟨"/m/a.jpg", 5, ⟨"/m/a.jpg", 5, "n"⟩⟩] : List MediaEvent),
            ¬ e.id = ev.event.path)) :=
  C7_dedup_delta [⟨"/m/a.jpg", 5, "n"⟩, ⟨"/m/b.jpg", 6, "n"⟩]
    [⟨"/m/a.jpg", 5, ⟨"/m/a.jpg", 5, "n"⟩⟩]

/-- Claim C8 counterexample: a supported file whose `File::open`/`metadata`
chain fails makes the scan of the whole location return an error (via `?`)
instead of skipping the file and continuing. -/
theorem C8_counterexample :
    recursive_directory_scan "n" 0
      (.dir false (.cons (.file ⟨"/m/a.jpg", some (some "jpg"), none⟩) .nil) none) =
      .error () := rfl

/-- Claim C8 (amended): a file whose extension cannot be decoded as text, or
whose modification time is unavailable from its metadata, is skipped and the
scan of the rest of the directory continues unchanged; but a failure of the
open/metadata calls on a file with a supported extension aborts the scan of
the location with an error. -/
theorem C8_amended_per_file_faults (n : String) (c : Int) (found : List Media)
    (newest : Int) (p : String) (meta : Option (Option Int)) (ex : String)
    (rest : FsList) :
    scanLoop n c found newest (.cons (.file ⟨p, some none, meta⟩) rest) none =
      scanLoop n c found newest rest none
    ∧ scanLoop n c found newest (.cons (.file ⟨p, some (some ex), some none⟩) rest) none =
      scanLoop n c found newest rest none
    ∧ scanLoop n c found newest (.cons (.file ⟨p, some (some ex), none⟩) rest) none =
      (if SUPPORTED_EXTENSIONS.contains (to_lowercase ex) then .error ()
       else scanLoop n c found newest rest none) := by
  refine ⟨?_, ?_, ?_⟩
  · rw [scanLoop_cons_file_undecodable _ _ _ _ _ _ _ _ (by simp)]
    rfl
  · by_cases hsup : SUPPORTED_EXTENSIONS.contains (to_lowercase ex) = true
    · rw [scanLoop_cons_file_noModified _ _ _ _ _ _ _ _ (by simp) hsup]
      rfl
    · rw [scanLoop_cons_file_unsupported _ _ _ _ _ _ _ _ _ (by simp) hsup]
      rfl
  · by_cases hsup : SUPPORTED_EXTENSIONS.contains (to_lowercase ex) = true
    · rw [scanLoop_cons_file_metaErr _ _ _ _ _ _ _ _ (by simp) hsup, if_pos hsup]
    · rw [scanLoop_cons_file_unsupported _ _ _ _ _ _ _ _ _ (by simp) hsup, if_neg hsup]
      rfl

/-- Claim C10: an entry-stream error at position `k` makes the loop behave as
if the directory ended after its first `k` entries (so the accumulated items
and cutoff are returned under `Ok`); a location free of hard per-entry faults
always scans to `Ok` whatever its stream errors; and a failing `read_dir`
returns an error. -/
theorem C10_stream_error_handling (name : String) (c : Int) :
    (∀ (l : FsList) (k : Nat) (found : List Media) (newest : Int),
      scanLoop name c found newest l (some k) =
        scanLoop name c found newest (fsTake k l) none)
    ∧ (∀ (entries : FsList) (errAt : Option Nat), listNoHardErr entries = true →
      ∃ r, recursive_directory_scan name c (.dir false entries errAt) = .ok r)
    ∧ (∀ (entries : FsList) (errAt : Option Nat),
      recursive_directory_scan name c (.dir true entries errAt) = .error ()) := by
  refine ⟨scanLoop_truncates name c, ?_, ?_⟩
  · intro entries errAt h
    exact (scan_noHardErr_ok name c).1 (.dir false entries errAt)
      (by simp [entryNoHardErr, h]) entries errAt rfl
  · intro entries errAt
    rw [rds_dir, if_pos rfl]

/-- The entry sequence of the C10 witness: one supported file whose
`modified()` time is unavailable followed by one supported file at time 7. -/
def C10list : FsList :=
  .cons (.file ⟨"/m/a.jpg", some (some "jpg"), some none⟩)
    (.cons (.file ⟨"/m/b.jpg", some (some "jpg"), some (some 7)⟩) .nil)

/-- Claim C10 witness: the hard-fault-free sequence scans to `Ok` even with a
stream error after its first entry, and the truncation equation holds there. -/
theorem C10_witness :
    listNoHardErr C10list = true
    ∧ (∃ r, recursive_directory_scan "n" 0 (.dir false C10list (some 1)) = .ok r)
    ∧ scanLoop "n" 0 [] 0 C10list (some 1) = scanLoop "n" 0 [] 0 (fsTake 1 C10list) none :=
  ⟨by decide,
   (C10_stream_error_handling "n" 0).2.1 C10list (some 1) (by decide),
   (C10_stream_error_handling "n" 0).1 C10list 1 [] 0⟩

/-- Claim C1 counterexample: the cutoff entry for the location is 0, the scan
succeeds with new cutoff 5, the dedup query and the (empty) insert step both
succeed — yet the cutoff entry is left at 0 rather than advanced to 5,
because the delta is empty and the cache write is guarded by
`!insert.is_empty()`. -/
theorem C1_counterexample :
    recursive_directory_scan "n" 0
        (.dir false (.cons (.file ⟨"/m/a.jpg", some (some "jpg"), some (some 5)⟩) .nil) none) =
      .ok ([⟨"/m/a.jpg", 5, "n"⟩], 5)
    ∧ (update_media_directory "n" "/m"
        (.dir false (.cons (.file ⟨"/m/a.jpg", some (some "jpg"), some (some 5)⟩) .nil) none)
        false true true [("/m", 0)]
        ⟨[⟨"/m/a.jpg", 5, ⟨"/m/a.jpg", 5, "n"⟩⟩], false, false⟩).1 = [("/m", 0)]
    ∧ lookupCache [("/m", 0)] "/m" = some 0
    ∧ (0 : Int) ≠ 5 :=
  ⟨rfl, rfl, rfl, by decide⟩

/-- Claim C1 (amended): for a location whose cutoff entry exists (value `v`)
and whose scan succeeds with new cutoff `nl`, and with a succeeding cache
persist: the cutoff entry is advanced to `nl` exactly when the dedup query
succeeds, the computed delta is non-empty and the insert succeeds; if the
query or the insert fails — or the delta is empty — the entry is left
unchanged, so the same window is rescanned on the next cycle. -/
theorem C1_amended_cutoff_advance (name loc : String) (tree : FsEntry)
    (pe : Bool) (cache : TimingCache) (db : Db) (v : Int)
    (media : List Media) (nl : Int)
    (h1 : lookupCache cache loc = some v)
    (h2 : recursive_directory_scan name v tree = .ok (media, nl)) :
    (update_media_directory name loc tree false pe true cache db).1 =
      (if db.queryFails
          || (compute_insert (toEvents media)
              (db.events.filter (fun e =>
                ((toEvents media).map (fun x => x.event.path)).contains e.event.path))).isEmpty
          || db.insertFails
        then cache
        else insertCache cache loc nl)
    ∧ lookupCache (insertCache cache loc nl) loc = some nl := by
  refine ⟨?_, lookupCache_insertCache_self cache loc nl⟩
  have hu : update_media_directory name loc tree false pe true cache db =
      update_after_scan name loc tree v true cache db := by
    unfold update_media_directory
    rw [h1]
  have hstep : update_after_scan name loc tree v true cache db =
      (if db.queryFails then (cache, db)
       else if (compute_insert (toEvents media)
           (db.events.filter (fun e =>
             ((toEvents media).map (fun x => x.event.path)).contains e.event.path))).isEmpty
         then (cache, db)
       else if db.insertFails then (cache, db)
       else (insertCache cache loc nl,
         { db with events := (db.events ++ compute_insert (toEvents media)
             (db.events.filter (fun e =>
               ((toEvents media).map (fun x => x.event.path)).contains e.event.path))) })) := by
    unfold update_after_scan
    rw [h2]
    rfl
  rw [hu, hstep]
  cases hq : db.queryFails with
  | true => rfl
  | false =>
    cases hins : (compute_insert (toEvents media)
        (db.events.filter (fun e =>
          ((toEvents media).map (fun x => x.event.path)).contains e.event.path))).isEmpty with
    | true => rfl
    | false =>
      cases hif : db.insertFails with
      | true => rfl
      | false => rfl

/-- Claim C1 (amended) witness: for an empty directory with an existing cutoff
entry the delta is empty and the entry is left unchanged. -/
theorem C1_amended_witness :
    lookupCache [("/m", (0 : Int))] "/m" = some 0
    ∧ recursive_directory_scan "n" 0 (.dir false .nil none) = .ok ([], 0)
    ∧ ((update_media_directory "n" "/m" (.dir false .nil none) false true true
        [("/m", 0)] ⟨[], false, false⟩).1 =
      (if (⟨[], false, false⟩ : Db).queryFails
          || (compute_insert (toEvents ([] : List Media))
              ((⟨[], false, false⟩ : Db).events.filter (fun e =>
                ((toEvents ([] : List Media)).map (fun x => x.event.path)).contains
                  e.event.path))).isEmpty
          || (⟨[], false, false⟩ : Db).insertFails
        then [("/m", 0)]
        else insertCache [("/m", 0)] "/m" 0)
      ∧ lookupCache (insertCache [("/m", 0)] "/m" 0) "/m" = some 0) :=
  ⟨rfl, rfl,
   C1_amended_cutoff_advance "n" "/m" (.dir false .nil none) true [("/m", 0)]
     ⟨[], false, false⟩ 0 [] 0 rfl rfl⟩

/-- The possible first components of `update_after_scan`: either the cache is
left unchanged, or the scan succeeded and the entry for the location was
replaced by the scan's new cutoff. -/
theorem update_after_scan_fst_cases (name loc : String) (tree : FsEntry) (lt : Int)
    (pc : Bool) (cache : TimingCache) (db : Db) :
    (update_after_scan name loc tree lt pc cache db).1 = cache
    ∨ ∃ media nl, recursive_directory_scan name lt tree = .ok (media, nl)
        ∧ (update_after_scan name loc tree lt pc cache db).1 = insertCache cache loc nl := by
  rcases hscan : recursive_directory_scan name lt tree with u | ⟨media, nl⟩
  · left
    unfold update_after_scan
    rw [hscan]
  · have hstep : update_after_scan name loc tree lt pc cache db =
        (if db.queryFails then (cache, db)
         else if (compute_insert (toEvents media)
             (db.events.filter (fun e =>
               ((toEvents media).map (fun x => x.event.path)).contains e.event.path))).isEmpty
           then (cache, db)
         else if db.insertFails then (cache, db)
         else if pc then (insertCache cache loc nl,
             { db with events := (db.events ++ compute_insert (toEvents media)
                 (db.events.filter (fun e =>
                   ((toEvents media).map (fun x => x.event.path)).contains e.event.path))) })
           else (cache,
             { db with events := (db.events ++ compute_insert (toEvents media)
                 (db.events.filter (fun e =>
                   ((toEvents media).map (fun x => x.event.path)).contains e.event.path))) })) := by
      unfold update_after_scan
      rw [hscan]
    rw [hstep]
    cases hq : db.queryFails with
    | true => left; rfl
    | false =>
      cases hins : (compute_insert (toEvents media)
          (db.events.filter (fun e =>
            ((toEvents media).map (fun x => x.event.path)).contains e.event.path))).isEmpty with
      | true => left; rfl
      | false =>
        cases hif : db.insertFails with
        | true => left; rfl
        | false =>
          cases pc with
          | true => exact Or.inr ⟨media, nl, rfl, rfl⟩
          | false => left; rfl

/-- Claim C5 counterexample: a forced full reload of a location whose stored
cutoff is 100, over a tree whose only file (not yet indexed) has modification
time 50, rewrites the persisted cutoff from 100 down to 50. -/
theorem C5_counterexample :
    lookupCache [("/m", 100)] "/m" = some 100
    ∧ lookupCache (update_media_directory "n" "/m"
        (.dir false (.cons (.file ⟨"/m/b.jpg", some (some "jpg"), some (some 50)⟩) .nil) none)
        true true true [("/m", 100)] ⟨[], false, false⟩).1 "/m" = some 50
    ∧ (50 : Int) < 100 :=
  ⟨rfl, rfl, by decide⟩

/-- Claim C5 (amended): on incremental cycles (no forced full reload) the
persisted cutoff of a location never decreases: whatever the scan, query,
insert and persist outcomes, the value after `update_media_directory` is at
least the value before. A forced full-reload cycle can lower it (see the
counterexample). -/
theorem C5_amended_monotonic_incremental (name loc : String) (tree : FsEntry)
    (pe pc : Bool) (cache : TimingCache) (db : Db) (v v' : Int)
    (h1 : lookupCache cache loc = some v)
    (h2 : lookupCache
      (update_media_directory name loc tree false pe pc cache db).1 loc = some v') :
    v ≤ v' := by
  have hu : update_media_directory name loc tree false pe pc cache db =
      update_after_scan name loc tree v pc cache db := by
    unfold update_media_directory
    rw [h1]
  rw [hu] at h2
  rcases update_after_scan_fst_cases name loc tree v pc cache db with
    hcase | ⟨media, nl, hscan, hcase⟩
  · rw [hcase, h1] at h2
    injection h2 with h3
    exact le_of_eq h3
  · rw [hcase, lookupCache_insertCache_self] at h2
    injection h2 with h3
    rw [← h3]
    exact rds_ok_ge name v tree media nl hscan

/-- Claim C5 (amended) witness: an incremental cycle advancing the entry from
0 to 5 respects monotonicity. -/
theorem C5_amended_witness :
    lookupCache [("/m", (0 : Int))] "/m" = some 0
    ∧ lookupCache (update_media_directory "n" "/m"
        (.dir false (.cons (.file ⟨"/m/a.jpg", some (some "jpg"), some (some 5)⟩) .nil) none)
        false true true [("/m", 0)] ⟨[], false, false⟩).1 "/m" = some 5
    ∧ (0 : Int) ≤ 5 :=
  ⟨rfl, rfl,
   C5_amended_monotonic_incremental "n" "/m"
     (.dir false (.cons (.file ⟨"/m/a.jpg", some (some "jpg"), some (some 5)⟩) .nil) none)
     true true [("/m", 0)] ⟨[], false, false⟩ 0 5 rfl rfl⟩

end MediaScan
